import Mathlib

/-!
# Verification of the key-value store (`kvstore_server.py`, `kvstore_cluster.py`)

A shallow embedding of the repository's durability engine (WAL + checkpoint +
recovery), in-memory store, request dispatcher, and cluster coordinator,
together with proofs and refutations of the specification's claims.

Values are the JSON-compatible trees the wire protocol carries (the Python
code stores whatever `json.loads` produced).  JSON numbers are modelled as
integers; no claim depends on non-integral numbers.  `pickle` is modelled as
an injective, executable, self-delimiting encoding of records into a list of
byte-like naturals (`pickle.loads` succeeds exactly on complete encodings and
fails on truncated ones, which is the behaviour `WriteAheadLog.replay` relies
on); the replay loop of `WriteAheadLog.replay` is embedded over that encoding.
-/

namespace KVSpec

/-- A JSON-compatible value: null, boolean, number, string, ordered list, or
mapping from string to value (spec §3 "Value"). -/
inductive Json where
  | null
  | bool (b : Bool)
  | num (n : Int)
  | str (s : String)
  | arr (elems : List Json)
  | obj (fields : List (String × Json))

/-- Token stream of a string: length, then the character codes. -/
def tokStr (s : String) : List Nat :=
  s.data.length :: s.data.map Char.toNat

mutual

/-- Serialization of a JSON value to a flat token stream (the model of what
`pickle.dumps` produces for the corresponding Python value). -/
def tokJson : Json → List Nat
  | .null => [0]
  | .bool b => [1, cond b 1 0]
  | .num n => [2, if n < 0 then 1 else 0, n.natAbs]
  | .str s => 3 :: tokStr s
  | .arr xs => 4 :: xs.length :: tokList xs
  | .obj fs => 5 :: fs.length :: tokFields fs

/-- Serialization of the elements of a JSON array, in order. -/
def tokList : List Json → List Nat
  | [] => []
  | x :: xs => tokJson x ++ tokList xs

/-- Serialization of the fields of a JSON object, in order. -/
def tokFields : List (String × Json) → List Nat
  | [] => []
  | (k, v) :: fs => tokStr k ++ tokJson v ++ tokFields fs

end

mutual

/-- Decoder for the token stream; `fuel` only bounds recursion depth. -/
def decJson : Nat → List Nat → Option (Json × List Nat)
  | _ + 1, 0 :: r => some (.null, r)
  | _ + 1, 1 :: b :: r => some (.bool (b == 1), r)
  | _ + 1, 2 :: sgn :: m :: r =>
      some (.num (if sgn == 1 then -(m : Int) else (m : Int)), r)
  | _ + 1, 3 :: n :: r =>
      if n ≤ r.length then
        some (.str (String.mk ((r.take n).map Char.ofNat)), r.drop n)
      else none
  | f + 1, 4 :: n :: r =>
      match decList f n r with
      | some (xs, rest) => some (.arr xs, rest)
      | none => none
  | f + 1, 5 :: n :: r =>
      match decFields f n r with
      | some (fs, rest) => some (.obj fs, rest)
      | none => none
  | _, _ => none

def decList : Nat → Nat → List Nat → Option (List Json × List Nat)
  | _ + 1, 0, r => some ([], r)
  | f + 1, n + 1, r =>
      match decJson f r with
      | some (x, r1) =>
          match decList f n r1 with
          | some (xs, r2) => some (x :: xs, r2)
          | none => none
      | none => none
  | _, _, _ => none

def decFields : Nat → Nat → List Nat → Option (List (String × Json) × List Nat)
  | _ + 1, 0, r => some ([], r)
  | f + 1, n + 1, kn :: r =>
      if kn ≤ r.length then
        match decJson f (r.drop kn) with
        | some (v, r1) =>
            match decFields f n r1 with
            | some (fs, r2) =>
                some ((String.mk ((r.take kn).map Char.ofNat), v) :: fs, r2)
            | none => none
        | none => none
      else none
  | _, _, _ => none

end

theorem tokStr_decode (s : String) (r : List Nat) :
    (s.data.length ≤ ((s.data.map Char.toNat) ++ r).length) ∧
      String.mk ((((s.data.map Char.toNat) ++ r).take s.data.length).map Char.ofNat) = s ∧
      ((s.data.map Char.toNat) ++ r).drop s.data.length = r := by
  have hlen : (s.data.map Char.toNat).length = s.data.length := List.length_map _ _
  refine ⟨?_, ?_, ?_⟩
  · rw [List.length_append, hlen]; omega
  · rw [← hlen, List.take_left, List.map_map]
    have : (Char.ofNat ∘ Char.toNat) = id := by
      funext c; exact Char.ofNat_toNat c
    rw [this, List.map_id]
  · rw [← hlen, List.drop_left]

/-- Every encoded value starts with a tag byte. -/
theorem tokJson_length_pos (v : Json) : 1 ≤ (tokJson v).length := by
  cases v <;> simp [tokJson]

theorem dec_complete : ∀ f : Nat,
    (∀ (v : Json) (r : List Nat), (tokJson v).length ≤ f →
      decJson f (tokJson v ++ r) = some (v, r)) ∧
    (∀ (xs : List Json) (r : List Nat), (tokList xs).length < f →
      decList f xs.length (tokList xs ++ r) = some (xs, r)) ∧
    (∀ (fs : List (String × Json)) (r : List Nat), (tokFields fs).length < f →
      decFields f fs.length (tokFields fs ++ r) = some (fs, r)) := by
  intro f
  induction f with
  | zero => exact ⟨fun v r h => absurd (lt_of_lt_of_le (tokJson_length_pos v) h)
        (Nat.not_lt_zero _),
      fun xs r h => absurd h (Nat.not_lt_zero _),
      fun fs r h => absurd h (Nat.not_lt_zero _)⟩
  | succ f ih =>
    obtain ⟨ihJ, ihL, ihF⟩ := ih
    refine ⟨?_, ?_, ?_⟩
    · intro v r h
      cases v with
      | null => rfl
      | bool b => cases b <;> rfl
      | num n =>
        show decJson (f + 1) (2 :: (if n < 0 then 1 else 0) :: n.natAbs :: r) = _
        by_cases hn : n < 0
        · simp only [if_pos hn, decJson]
          have hm : ((n.natAbs : Int)) = -n := Int.ofNat_natAbs_of_nonpos (le_of_lt hn)
          simp [hm]
        · simp only [if_neg hn, decJson]
          have hm : ((n.natAbs : Int)) = n := Int.natAbs_of_nonneg (not_lt.mp hn)
          simp [hm]
      | str s =>
        show decJson (f + 1) (3 :: s.data.length :: ((s.data.map Char.toNat) ++ r)) = _
        obtain ⟨h1, h2, h3⟩ := tokStr_decode s r
        simp only [decJson, if_pos h1, h2, h3]
      | arr xs =>
        show decJson (f + 1) (4 :: xs.length :: (tokList xs ++ r)) = _
        have hlen : (tokJson (.arr xs)).length = (tokList xs).length + 2 := by
          simp [tokJson]
        have hs : (tokList xs).length < f := by omega
        simp only [decJson, ihL xs r hs]
      | obj fs =>
        show decJson (f + 1) (5 :: fs.length :: (tokFields fs ++ r)) = _
        have hlen : (tokJson (.obj fs)).length = (tokFields fs).length + 2 := by
          simp [tokJson]
        have hs : (tokFields fs).length < f := by omega
        simp only [decJson, ihF fs r hs]
    · intro xs r h
      cases xs with
      | nil => rfl
      | cons x xs =>
        have hlen : (tokList (x :: xs)).length
            = (tokJson x).length + (tokList xs).length := by
          simp [tokList]
        have hx := tokJson_length_pos x
        show decList (f + 1) (xs.length + 1) ((tokJson x ++ tokList xs) ++ r) = _
        rw [List.append_assoc]
        simp only [decList, ihJ x (tokList xs ++ r) (by omega),
          ihL xs r (by omega)]
    · intro fs r h
      cases fs with
      | nil => rfl
      | cons kv fs =>
        obtain ⟨k, v⟩ := kv
        have hlen : (tokFields ((k, v) :: fs)).length
            = (tokStr k).length + ((tokJson v).length + (tokFields fs).length) := by
          simp [tokFields]
        have hk1 : 1 ≤ (tokStr k).length := by simp [tokStr]
        have hv1 := tokJson_length_pos v
        obtain ⟨h1, h2, h3⟩ := tokStr_decode k (tokJson v ++ (tokFields fs ++ r))
        have harr : tokFields ((k, v) :: fs) ++ r
            = k.data.length :: ((k.data.map Char.toNat) ++ (tokJson v ++ (tokFields fs ++ r))) := by
          show (tokStr k ++ tokJson v ++ tokFields fs) ++ r = _
          simp [tokStr, List.append_assoc]
        show decFields (f + 1) (fs.length + 1) (tokFields ((k, v) :: fs) ++ r) = _
        rw [harr]
        simp only [decFields, if_pos h1, h3, h2]
        simp only [ihJ v (tokFields fs ++ r) (by omega), ihF fs r (by omega)]

theorem tokJson_inj {a b : Json} (h : tokJson a = tokJson b) : a = b := by
  obtain ⟨F, hFa, hFb⟩ : ∃ F, (tokJson a).length ≤ F ∧ (tokJson b).length ≤ F :=
    ⟨(tokJson a).length + (tokJson b).length, by omega, by omega⟩
  have ha := (dec_complete F).1 a [] hFa
  have hb := (dec_complete F).1 b [] hFb
  rw [h] at ha
  have hab := ha.symm.trans hb
  simp only [Option.some.injEq, Prod.mk.injEq] at hab
  exact hab.1

instance : DecidableEq Json := fun a b =>
  if h : tokJson a = tokJson b then isTrue (tokJson_inj h)
  else isFalse (fun hab => h (hab ▸ rfl))

/-! ## The in-memory store and the WAL record language -/

/-- The in-memory store: the Python `dict` of `KVStore.store`, viewed as the
mapping it represents.  Keys are the JSON values the dispatcher extracts from
requests (`request['key']`); Python's hashability restriction on keys is not
modelled, since every claim concerns keys that reached the store. -/
def Store : Type := Json → Option Json

/-- The empty store (`self.store = {}` in `KVStore.__init__`). -/
def emptyStore : Store := fun _ => none

/-- `self.store[key] = value`. -/
def storeSet (s : Store) (k v : Json) : Store :=
  fun q => if q = k then some v else s q

/-- `self.store.pop(key, None)` / `del self.store[key]`. -/
def storeDel (s : Store) (k : Json) : Store :=
  fun q => if q = k then none else s q

/-- A WAL record, exactly the three record shapes `KVStore` ever logs:
`{'type':'set','key':k,'value':v}`, `{'type':'delete','key':k}`, and
`{'type':'bulk_set','items':items}`. -/
inductive Op where
  | set (key value : Json)
  | del (key : Json)
  | bulkSet (items : List (Json × Json))
deriving DecidableEq

/-- The `for key, value in op['items']` loop of `bulk_set` and of replay:
apply the items in order, later duplicates winning. -/
def applyBulk (s : Store) (items : List (Json × Json)) : Store :=
  items.foldl (fun t kv => storeSet t kv.1 kv.2) s

/-- Effect of one record on the store.  This is simultaneously the live
mutation (`set`/`delete`/`bulk_set` after their WAL append) and the replay
interpretation in `_load_from_disk` (the two loops have identical bodies;
`delete` only reaches the WAL for keys that were present, and removing an
absent key is a no-op on the mapping either way). -/
def applyOp (s : Store) : Op → Store
  | .set k v => storeSet s k v
  | .del k => storeDel s k
  | .bulkSet items => applyBulk s items

/-- Apply a sequence of records in order (`for op in operations` in
`_load_from_disk`, and equally the live history of acknowledged mutations). -/
def applyOps (s : Store) (ops : List Op) : Store := ops.foldl applyOp s

/-- The value assigned to key `k` by the last item of a bulk-set batch that
mentions `k`, if any. -/
def lastItemVal (items : List (Json × Json)) (k : Json) : Option Json :=
  items.foldl (fun acc kv => if kv.1 = k then some kv.2 else acc) none

/-- One step of the "last write to `k`" scan. -/
def writeStep (k : Json) (acc : Option (Option Json)) : Op → Option (Option Json)
  | .set k1 v => if k1 = k then some (some v) else acc
  | .del k1 => if k1 = k then some none else acc
  | .bulkSet items =>
      match lastItemVal items k with
      | some v => some (some v)
      | none => acc

/-- The net effect on key `k` of a record sequence: `some (some v)` if the
last record writing `k` binds it to `v`, `some none` if it deletes it, and
`none` if no record writes `k`.  This is the specification-level notion of
"the most recent acknowledged SET/BULK_SET/DELETE to that key". -/
def writeOf (ops : List Op) (k : Json) : Option (Option Json) :=
  ops.foldl (writeStep k) none

theorem foldl_writeStep_acc (ops : List Op) (k : Json) (a : Option (Option Json)) :
    ops.foldl (writeStep k) a =
      match ops.foldl (writeStep k) none with
      | some r => some r
      | none => a := by
  induction ops generalizing a with
  | nil => simp
  | cons op ops ih =>
    simp only [List.foldl_cons]
    rw [ih (writeStep k a op), ih (writeStep k none op)]
    cases h : ops.foldl (writeStep k) none with
    | some r => rfl
    | none =>
      cases op with
      | set k1 v =>
        simp only [writeStep]
        by_cases hk : k1 = k <;> simp [hk]
      | del k1 =>
        simp only [writeStep]
        by_cases hk : k1 = k <;> simp [hk]
      | bulkSet items =>
        simp only [writeStep]
        cases lastItemVal items k <;> rfl

theorem foldl_lastItem_acc (items : List (Json × Json)) (k : Json)
    (a : Option Json) :
    items.foldl (fun acc kv => if kv.1 = k then some kv.2 else acc) a =
      match items.foldl (fun acc kv => if kv.1 = k then some kv.2 else acc) none with
      | some r => some r
      | none => a := by
  induction items generalizing a with
  | nil => simp
  | cons kv items ih =>
    simp only [List.foldl_cons]
    rw [ih (if kv.1 = k then some kv.2 else a),
      ih (if kv.1 = k then some kv.2 else none)]
    cases h : items.foldl (fun acc kv => if kv.1 = k then some kv.2 else acc) none with
    | some r => rfl
    | none => by_cases hk : kv.1 = k <;> simp [hk]

theorem applyBulk_apply (items : List (Json × Json)) (s : Store) (k : Json) :
    applyBulk s items k =
      match lastItemVal items k with
      | some v => some v
      | none => s k := by
  induction items generalizing s with
  | nil => rfl
  | cons kv items ih =>
    show applyBulk (storeSet s kv.1 kv.2) items k = _
    rw [ih]
    unfold lastItemVal
    simp only [List.foldl_cons]
    rw [foldl_lastItem_acc items k (if kv.1 = k then some kv.2 else none)]
    cases h : items.foldl (fun acc kv => if kv.1 = k then some kv.2 else acc) none with
    | some r => rfl
    | none =>
      simp only [storeSet]
      by_cases hk : kv.1 = k
      · subst hk; simp
      · have hk2 : ¬ k = kv.1 := fun hh => hk hh.symm
        simp [hk, hk2]

/-- Pointwise description of applying a record sequence: the value at `k`
is the last write to `k` in the sequence, or the initial value if the
sequence never writes `k`. -/
theorem applyOps_apply (ops : List Op) (s : Store) (k : Json) :
    applyOps s ops k = (writeOf ops k).getD (s k) := by
  induction ops generalizing s with
  | nil => rfl
  | cons op ops ih =>
    show applyOps (applyOp s op) ops k = _
    rw [ih]
    unfold writeOf
    simp only [List.foldl_cons]
    rw [foldl_writeStep_acc ops k (writeStep k none op)]
    cases h : ops.foldl (writeStep k) none with
    | some r => rfl
    | none =>
      cases op with
      | set k1 v =>
        simp only [applyOp, storeSet, writeStep]
        by_cases hk : k1 = k
        · subst hk; simp
        · have hk2 : ¬ k = k1 := fun hh => hk hh.symm
          simp [hk, hk2]
      | del k1 =>
        simp only [applyOp, storeDel, writeStep]
        by_cases hk : k1 = k
        · subst hk; simp
        · have hk2 : ¬ k = k1 := fun hh => hk hh.symm
          simp [hk, hk2]
      | bulkSet items =>
        simp only [applyOp, writeStep]
        rw [applyBulk_apply]
        cases lastItemVal items k <;> rfl

theorem applyOps_append (s : Store) (l1 l2 : List Op) :
    applyOps s (l1 ++ l2) = applyOps (applyOps s l1) l2 :=
  List.foldl_append _ _ _ _

/-! ## The WAL file at byte level (`WriteAheadLog`) -/

/-- Tokens of the items list of a `bulk_set` record. -/
def tokItems : List (Json × Json) → List Nat
  | [] => []
  | (k, v) :: rest => tokJson k ++ (tokJson v ++ tokItems rest)

/-- `pickle.dumps(operation)`: the byte-level payload of one WAL record. -/
def tokOp : Op → List Nat
  | .set k v => 10 :: (tokJson k ++ tokJson v)
  | .del k => 11 :: tokJson k
  | .bulkSet items => 12 :: items.length :: tokItems items

def decItems : Nat → Nat → List Nat → Option (List (Json × Json) × List Nat)
  | _ + 1, 0, r => some ([], r)
  | f + 1, n + 1, r =>
      match decJson f r with
      | some (k, r1) =>
          match decJson f r1 with
          | some (v, r2) =>
              match decItems f n r2 with
              | some (items, r3) => some ((k, v) :: items, r3)
              | none => none
          | none => none
      | none => none
  | _, _, _ => none

/-- `pickle.loads(entry_bytes)`: succeeds exactly when the bytes are one
complete record encoding (a truncated or otherwise malformed byte string
makes `pickle.loads` raise, modelled as `none`).  `replay` always hands it
exactly the prefixed length's worth of bytes, so requiring the whole input
to be consumed matches `pickle.loads` on every reachable input. -/
def loadsOp (bytes : List Nat) : Option Op :=
  let f := bytes.length + 1
  match bytes with
  | 10 :: r =>
      match decJson f r with
      | some (k, r1) =>
          match decJson f r1 with
          | some (v, r2) => if r2 = [] then some (.set k v) else none
          | none => none
      | none => none
  | 11 :: r =>
      match decJson f r with
      | some (k, r1) => if r1 = [] then some (.del k) else none
      | none => none
  | 12 :: n :: r =>
      match decItems f n r with
      | some (items, r1) => if r1 = [] then some (.bulkSet items) else none
      | none => none
  | _ => none

theorem tokItems_length (k v : Json) (rest : List (Json × Json)) :
    (tokItems ((k, v) :: rest)).length
      = (tokJson k).length + ((tokJson v).length + (tokItems rest).length) := by
  simp [tokItems]

theorem decItems_complete :
    ∀ (items : List (Json × Json)) (f : Nat) (r : List Nat),
      (tokItems items).length < f →
      decItems f items.length (tokItems items ++ r) = some (items, r) := by
  intro items
  induction items with
  | nil =>
    intro f r h
    match f, h with
    | f + 1, _ => rfl
  | cons kv rest ih =>
    intro f r h
    obtain ⟨k, v⟩ := kv
    match f, h with
    | f + 1, h =>
      have hlen := tokItems_length k v rest
      have hk := tokJson_length_pos k
      have hv := tokJson_length_pos v
      show decItems (f + 1) (rest.length + 1)
        ((tokJson k ++ (tokJson v ++ tokItems rest)) ++ r) = _
      rw [List.append_assoc, List.append_assoc]
      simp only [decItems,
        (dec_complete f).1 k (tokJson v ++ (tokItems rest ++ r)) (by omega),
        (dec_complete f).1 v (tokItems rest ++ r) (by omega),
        ih f r (by omega)]

/-- `pickle.loads (pickle.dumps op) = op`. -/
theorem loadsOp_tokOp (op : Op) : loadsOp (tokOp op) = some op := by
  cases op with
  | set k v =>
    have hkv : tokJson k ++ tokJson v = tokJson k ++ (tokJson v ++ []) := by simp
    show loadsOp (10 :: (tokJson k ++ tokJson v)) = _
    rw [hkv]
    simp only [loadsOp]
    rw [(dec_complete ((10 :: (tokJson k ++ (tokJson v ++ []))).length + 1)).1 k
      (tokJson v ++ [])
      (by simp only [List.length_cons, List.length_append, List.length_nil]; omega)]
    have h2 : decJson ((tokJson k).length + (tokJson v).length + 1 + 1) (tokJson v)
        = some (v, []) := by
      have h0 := (dec_complete ((tokJson k).length + (tokJson v).length + 1 + 1)).1 v []
        (by omega)
      simpa using h0
    simp [h2]
  | del k =>
    have hke : tokJson k = tokJson k ++ [] := by simp
    show loadsOp (11 :: tokJson k) = _
    rw [hke]
    simp only [loadsOp]
    have h2 : decJson ((tokJson k).length + 1 + 1) (tokJson k) = some (k, []) := by
      have h0 := (dec_complete ((tokJson k).length + 1 + 1)).1 k [] (by omega)
      simpa using h0
    simp [h2]
  | bulkSet items =>
    have hie : tokItems items = tokItems items ++ [] := by simp
    show loadsOp (12 :: items.length :: tokItems items) = _
    rw [hie]
    simp only [loadsOp]
    have h2 : decItems ((tokItems items).length + 1 + 1 + 1) items.length (tokItems items)
        = some (items, []) := by
      have h0 := decItems_complete items ((tokItems items).length + 1 + 1 + 1) []
        (by omega)
      simpa using h0
    simp [h2]

/-- `len(entry).to_bytes(4, byteorder='big')`. -/
def toBytes4 (n : Nat) : List Nat :=
  [n / 16777216 % 256, n / 65536 % 256, n / 256 % 256, n % 256]

/-- `int.from_bytes(length_bytes, byteorder='big')` (defined on however many
bytes were actually read). -/
def fromBytes (l : List Nat) : Nat :=
  l.foldl (fun a b => a * 256 + b) 0

theorem fromBytes_toBytes4 (n : Nat) (h : n < 4294967296) :
    fromBytes (toBytes4 n) = n := by
  simp only [toBytes4, fromBytes, List.foldl_cons, List.foldl_nil]
  omega

/-- One WAL record as `log_operation` writes it: 4-byte big-endian length
prefix, then the pickled operation. -/
def encodeRecord (op : Op) : List Nat :=
  toBytes4 (tokOp op).length ++ tokOp op

/-- The byte content of the WAL file after appending the given records in
order (the file is truncated to empty at each checkpoint, so this is the
content since the last checkpoint). -/
def walBytes : List Op → List Nat
  | [] => []
  | op :: ops => encodeRecord op ++ walBytes ops

/-- The record fits the 4-byte length prefix (`to_bytes(4, 'big')` raises
`OverflowError` beyond that, so any record actually on disk satisfies it). -/
def opFits (op : Op) : Prop := (tokOp op).length < 4294967296

instance (op : Op) : Decidable (opFits op) := by
  unfold opFits; infer_instance

/-- The reading loop of `WriteAheadLog.replay` (lines 48-58 of
`kvstore_server.py`): read up to 4 length bytes, stop cleanly only on a read
of zero bytes, otherwise take that many payload bytes and unpickle them.
`.error ()` models an exception escaping the loop (as `pickle.loads` does on
a short read); fuel is `bytes.length`, enough because every iteration
consumes at least one byte. -/
def replayGo : Nat → List Nat → Except Unit (List Op)
  | _, [] => .ok []
  | 0, _ :: _ => .error ()
  | f + 1, b :: bs =>
      let bytes := b :: bs
      let len := fromBytes (bytes.take 4)
      let rest := bytes.drop 4
      match loadsOp (rest.take len) with
      | none => .error ()
      | some op =>
          match replayGo f (rest.drop len) with
          | .ok ops => .ok (op :: ops)
          | .error e => .error e

/-- `WriteAheadLog.replay` on the given file content. -/
def replay (bytes : List Nat) : Except Unit (List Op) :=
  replayGo bytes.length bytes

/-- `KVStore._load_from_disk`: start from the checkpoint's store (empty when
there is no checkpoint file), replay the WAL, apply every replayed record.
`.error ()` is an exception aborting recovery. -/
def recover (ckpt : Store) (bytes : List Nat) : Except Unit Store :=
  match replay bytes with
  | .ok ops => .ok (applyOps ckpt ops)
  | .error e => .error e

theorem replayGo_walBytes (ops : List Op) :
    ∀ f : Nat, (walBytes ops).length ≤ f →
      (∀ op ∈ ops, opFits op) →
      replayGo f (walBytes ops) = .ok ops := by
  induction ops with
  | nil => intro f _ _; cases f <;> rfl
  | cons op ops ih =>
    intro f hf hfits
    have hop : opFits op := hfits op (List.mem_cons_self _ _)
    have hlen : (walBytes (op :: ops)).length
        = 4 + (tokOp op).length + (walBytes ops).length := by
      simp [walBytes, encodeRecord, toBytes4]
      omega
    have hpos := tokJson_length_pos
    have h1 : 1 ≤ (walBytes (op :: ops)).length := by omega
    match f, hf with
    | f + 1, hf =>
      have hshape : walBytes (op :: ops)
          = ((tokOp op).length / 16777216 % 256)
            :: (((tokOp op).length / 65536 % 256)
            :: (((tokOp op).length / 256 % 256)
            :: (((tokOp op).length % 256)
            :: (tokOp op ++ walBytes ops)))) := by
        simp [walBytes, encodeRecord, toBytes4]
      rw [hshape]
      show replayGo (f + 1) _ = _
      simp only [replayGo]
      have htake4 : (((tokOp op).length / 16777216 % 256)
            :: (((tokOp op).length / 65536 % 256)
            :: (((tokOp op).length / 256 % 256)
            :: (((tokOp op).length % 256)
            :: (tokOp op ++ walBytes ops))))).take 4
          = toBytes4 (tokOp op).length := rfl
      have hdrop4 : (((tokOp op).length / 16777216 % 256)
            :: (((tokOp op).length / 65536 % 256)
            :: (((tokOp op).length / 256 % 256)
            :: (((tokOp op).length % 256)
            :: (tokOp op ++ walBytes ops))))).drop 4
          = tokOp op ++ walBytes ops := rfl
      rw [htake4, hdrop4, fromBytes_toBytes4 _ hop]
      have htake : (tokOp op ++ walBytes ops).take (tokOp op).length = tokOp op :=
        List.take_left _ _
      have hdrop : (tokOp op ++ walBytes ops).drop (tokOp op).length = walBytes ops :=
        List.drop_left _ _
      rw [htake, hdrop, loadsOp_tokOp,
        ih f (by omega) (fun o ho => hfits o (List.mem_cons_of_mem _ ho))]

/-- Replaying a WAL consisting of whole records recovers exactly those
records, hence recovery applies them to the checkpoint store. -/
theorem recover_walBytes (ckpt : Store) (ops : List Op)
    (hfits : ∀ op ∈ ops, opFits op) :
    recover ckpt (walBytes ops) = .ok (applyOps ckpt ops) := by
  unfold recover replay
  rw [replayGo_walBytes ops (walBytes ops).length le_rfl hfits]

/-! ## Durability, batch atomicity, idempotence -/

/-- Whether a record writes (binds or removes) key `k`. -/
def opWritesKey (op : Op) (k : Json) : Bool :=
  match op with
  | .set k1 _ => decide (k1 = k)
  | .del k1 => decide (k1 = k)
  | .bulkSet items => (lastItemVal items k).isSome

theorem writeOf_eq_none (ops : List Op) (k : Json)
    (h : ∀ op ∈ ops, opWritesKey op k = false) : writeOf ops k = none := by
  induction ops with
  | nil => rfl
  | cons op ops ih =>
    have hop := h op (List.mem_cons_self _ _)
    have hrest : writeOf ops k = none :=
      ih (fun o ho => h o (List.mem_cons_of_mem _ ho))
    unfold writeOf at hrest ⊢
    simp only [List.foldl_cons]
    rw [foldl_writeStep_acc, hrest]
    cases op with
    | set k1 v =>
      have hk : ¬ (k1 = k) := by
        intro hh; rw [hh] at hop; simp [opWritesKey] at hop
      simp [writeStep, hk]
    | del k1 =>
      have hk : ¬ (k1 = k) := by
        intro hh; rw [hh] at hop; simp [opWritesKey] at hop
      simp [writeStep, hk]
    | bulkSet items =>
      have hk : lastItemVal items k = none := by
        simp [opWritesKey, Option.isSome_iff_exists] at hop
        exact hop
      simp [writeStep, hk]

/-- "The mutation's effect is present in store `s`": for a SET the key is
bound to the value, for a DELETE the key is absent, for a BULK_SET every
item key is bound to its (last) batched value. -/
def effectHolds : Op → Store → Prop
  | .set k v, s => s k = some v
  | .del k, s => s k = none
  | .bulkSet items, s => ∀ k v, lastItemVal items k = some v → s k = some v

/-- A record's effect survives all later records that do not write its
keys. -/
theorem effect_after_untouched
    (ckpt : Store) (pre mid : List Op) (op : Op)
    (hmid : ∀ k, opWritesKey op k = true → ∀ m ∈ mid, opWritesKey m k = false) :
    effectHolds op (applyOps ckpt (pre ++ op :: mid)) := by
  have hsplit : applyOps ckpt (pre ++ op :: mid)
      = applyOps (applyOp (applyOps ckpt pre) op) mid := by
    rw [applyOps_append]; rfl
  cases op with
  | set k v =>
    show applyOps ckpt (pre ++ .set k v :: mid) k = some v
    rw [hsplit, applyOps_apply,
      writeOf_eq_none mid k (hmid k (by simp [opWritesKey]))]
    simp [applyOp, storeSet]
  | del k =>
    show applyOps ckpt (pre ++ .del k :: mid) k = none
    rw [hsplit, applyOps_apply,
      writeOf_eq_none mid k (hmid k (by simp [opWritesKey]))]
    simp [applyOp, storeDel]
  | bulkSet items =>
    intro k v hkv
    rw [hsplit, applyOps_apply,
      writeOf_eq_none mid k (hmid k (by simp [opWritesKey, hkv]))]
    simp only [Option.getD_none]
    show applyBulk (applyOps ckpt pre) items k = some v
    rw [applyBulk_apply, hkv]

/-- C1 (amended): crash points that leave the WAL at a record boundary.
After an acknowledged mutation `op`, further acknowledged mutations `mid`
may follow; the WAL then holds `pre ++ op :: mid`.  Recovery yields exactly
the live store, and if no later record writes any key `op` writes, `op`'s
effect is present. -/
theorem durability_after_record_boundary_crash
    (ckpt : Store) (pre mid : List Op) (op : Op)
    (hfits : ∀ o ∈ pre ++ op :: mid, opFits o)
    (hmid : ∀ k, opWritesKey op k = true → ∀ m ∈ mid, opWritesKey m k = false) :
    recover ckpt (walBytes (pre ++ op :: mid))
        = .ok (applyOps ckpt (pre ++ op :: mid))
      ∧ effectHolds op (applyOps ckpt (pre ++ op :: mid)) :=
  ⟨recover_walBytes _ _ hfits, effect_after_untouched ckpt pre mid op hmid⟩

theorem durability_after_record_boundary_crash_witness :
    recover emptyStore
        (walBytes ([] ++ Op.set (.str "a") (.num 1) :: [Op.set (.str "b") (.num 2)]))
      = .ok (applyOps emptyStore
        ([] ++ Op.set (.str "a") (.num 1) :: [Op.set (.str "b") (.num 2)]))
    ∧ effectHolds (Op.set (.str "a") (.num 1))
        (applyOps emptyStore
          ([] ++ Op.set (.str "a") (.num 1) :: [Op.set (.str "b") (.num 2)])) :=
  durability_after_record_boundary_crash emptyStore [] [Op.set (.str "b") (.num 2)]
    (Op.set (.str "a") (.num 1))
    (by decide)
    (by
      intro k hk m hm
      have hk2 : Json.str "a" = k := of_decide_eq_true hk
      rw [List.mem_singleton] at hm
      subst hm
      rw [← hk2]
      decide)

/-- The WAL content after a crash in the middle of appending a record that
follows the records `ops`: the whole records, then a strict byte-level
truncation of the next record. -/
def crashedWal (ops : List Op) (next : Op) : List Nat :=
  walBytes ops ++ (encodeRecord next).take ((encodeRecord next).length - 1)

/-- C1 as stated is false: an acknowledged `SET "a" 1` is in the WAL, but a
crash in the middle of appending the next record leaves a truncated trailing
record, on which replay's `pickle.loads` raises, so recovery aborts and
yields no store at all (rather than a store containing the mutation). -/
theorem durability_fails_on_truncated_tail :
    recover emptyStore
        (crashedWal [Op.set (.str "a") (.num 1)] (Op.set (.str "b") (.num 2)))
      = .error () := by rfl

/-- C2 (amended): at record-boundary crash points, recovery is all-or-nothing
for a BULK_SET: crashes before its single WAL record yield the store without
any of its bindings; once the record is on disk (as it is for an acknowledged
batch), replay applies every item, and the bindings survive later records
that do not write them. -/
theorem bulk_atomicity_record_boundary
    (ckpt : Store) (pre mid : List Op) (items : List (Json × Json))
    (hfits : ∀ o ∈ pre ++ Op.bulkSet items :: mid, opFits o)
    (hmid : ∀ k, (lastItemVal items k).isSome = true →
      ∀ m ∈ mid, opWritesKey m k = false) :
    (∀ j ≤ pre.length,
      recover ckpt (walBytes (pre.take j)) = .ok (applyOps ckpt (pre.take j)))
    ∧ recover ckpt (walBytes (pre ++ Op.bulkSet items :: mid))
        = .ok (applyOps ckpt (pre ++ Op.bulkSet items :: mid))
    ∧ ∀ k v, lastItemVal items k = some v →
        applyOps ckpt (pre ++ Op.bulkSet items :: mid) k = some v := by
  refine ⟨?_, ?_, ?_⟩
  · intro j _
    exact recover_walBytes _ _ (fun o ho =>
      hfits o (List.mem_append_left _ (List.take_subset j pre ho)))
  · exact recover_walBytes _ _ hfits
  · exact effect_after_untouched ckpt pre mid (.bulkSet items)
      (by intro k hk; exact hmid k (by simpa [opWritesKey] using hk))

theorem bulk_atomicity_record_boundary_witness :
    (∀ j ≤ ([] : List Op).length,
      recover emptyStore (walBytes (([] : List Op).take j))
        = .ok (applyOps emptyStore (([] : List Op).take j)))
    ∧ recover emptyStore
        (walBytes ([] ++ Op.bulkSet [(.str "a", .num 1), (.str "b", .num 2)] :: []))
        = .ok (applyOps emptyStore
          ([] ++ Op.bulkSet [(.str "a", .num 1), (.str "b", .num 2)] :: []))
    ∧ ∀ k v, lastItemVal [(.str "a", .num 1), (.str "b", .num 2)] k = some v →
        applyOps emptyStore
          ([] ++ Op.bulkSet [(.str "a", .num 1), (.str "b", .num 2)] :: []) k
          = some v :=
  bulk_atomicity_record_boundary emptyStore [] []
    [(.str "a", .num 1), (.str "b", .num 2)]
    (by decide)
    (by intro k _ m hm; exact absurd hm (List.not_mem_nil m))

/-- C2 as stated is false for the same reason as C1: after an acknowledged
BULK_SET, a crash in the middle of a later record's append makes recovery
raise, yielding no store (neither "all" nor "none"). -/
theorem bulk_atomicity_fails_on_truncated_tail :
    recover emptyStore
        (crashedWal [Op.bulkSet [(.str "a", .num 1), (.str "b", .num 2)]]
          (Op.set (.str "c") (.num 3)))
      = .error () := by rfl

/-- C4: `replay` does not silently discard a truncated trailing record; it
raises.  Both truncation shapes of the claim are exercised: a payload
short-read (last byte of the trailing record missing), and a length prefix
shorter than 4 bytes.  In both cases replay returns an error instead of the
well-formed records `[SET "a" 1]` that precede the truncation. -/
theorem replay_raises_on_truncated_tail :
    replay (crashedWal [Op.set (.str "a") (.num 1)] (Op.set (.str "b") (.num 2)))
      = .error ()
    ∧ replay (walBytes [Op.set (.str "a") (.num 1)] ++ [0, 0]) = .error () :=
  ⟨by rfl, by rfl⟩

/-- C9: replay interpretation is idempotent (applying the same record
sequence a second time changes nothing), and recovery against the same
checkpoint and WAL content is reproducible: re-running it from the
already-recovered store yields the same store. -/
theorem recovery_idempotent :
    (∀ (ckpt : Store) (ops : List Op),
      applyOps (applyOps ckpt ops) ops = applyOps ckpt ops)
    ∧ ∀ (ckpt : Store) (ops : List Op), (∀ op ∈ ops, opFits op) →
        recover ckpt (walBytes ops) = .ok (applyOps ckpt ops)
        ∧ recover (applyOps ckpt ops) (walBytes ops)
          = recover ckpt (walBytes ops) := by
  have hidem : ∀ (ckpt : Store) (ops : List Op),
      applyOps (applyOps ckpt ops) ops = applyOps ckpt ops := by
    intro ckpt ops
    funext k
    rw [applyOps_apply, applyOps_apply]
    cases writeOf ops k <;> rfl
  refine ⟨hidem, fun ckpt ops hfits => ⟨recover_walBytes _ _ hfits, ?_⟩⟩
  rw [recover_walBytes _ _ hfits, recover_walBytes _ _ hfits, hidem]

theorem recovery_idempotent_witness :
    recover (applyOps emptyStore [Op.set (.str "a") (.num 1), Op.del (.str "a")])
        (walBytes [Op.set (.str "a") (.num 1), Op.del (.str "a")])
      = recover emptyStore (walBytes [Op.set (.str "a") (.num 1), Op.del (.str "a")]) :=
  ((recovery_idempotent.2 emptyStore [Op.set (.str "a") (.num 1), Op.del (.str "a")]
    (by decide)).2)

/-! ## The request dispatcher (`KVStoreServer._process_request`) -/

/-- Python `dict` lookup on an object built by `json.loads`: the last
duplicate of a field name wins. -/
def dictGet (fields : List (String × Json)) (name : String) : Option Json :=
  fields.foldl (fun acc kv => if kv.1 = name then some kv.2 else acc) none

/-- `value[name]` subscripting during request handling: a `KeyError` on an
object without the field, a `TypeError` on any non-object (indexing a list,
string, number, boolean or null with a string key raises). -/
def getItemE (v : Json) (name : String) : Except String Json :=
  match v with
  | .obj fields =>
      match dictGet fields name with
      | some x => .ok x
      | none => .error ("KeyError: " ++ name)
  | _ => .error ("TypeError: " ++ name)

/-- The list comprehension
`[(item['key'], item['value']) for item in request['items']]`:
fails as soon as one item lacks a field or is not an object. -/
def extractItems : List Json → Except String (List (Json × Json))
  | [] => .ok []
  | item :: rest =>
      match getItemE item "key" with
      | .ok k =>
          match getItemE item "value" with
          | .ok v =>
              match extractItems rest with
              | .ok tail => .ok ((k, v) :: tail)
              | .error m => .error m
          | .error m => .error m
      | .error m => .error m

/-- `{'status': 'OK', 'success': b}`. -/
def okSuccessResp (b : Bool) : Json :=
  .obj [("status", .str "OK"), ("success", .bool b)]

/-- `{'status': 'OK', 'value': v}`. -/
def okValueResp (v : Json) : Json :=
  .obj [("status", .str "OK"), ("value", v)]

/-- `{'status': 'NOT_FOUND', 'value': None}`. -/
def notFoundResp : Json :=
  .obj [("status", .str "NOT_FOUND"), ("value", .null)]

/-- `{'status': 'ERROR', 'message': m}`. -/
def errorResp (m : String) : Json :=
  .obj [("status", .str "ERROR"), ("message", .str m)]

/-- The body of `KVStoreServer._process_request` (lines 256-283), before the
enclosing `try/except`: `.error m` is an uncaught exception.  Every raise
happens before the store mutation of its branch (`request['key']` and
`request['value']` are read before `kvstore.set`; the items comprehension
runs before `kvstore.bulk_set`), so the store returned on success is the
only mutation. -/
def processRequestE (req : Json) (s : Store) : Except String (Json × Store) :=
  match req with
  | .obj fields =>
      let operation := dictGet fields "operation"
      if operation = some (.str "SET") then
        match getItemE req "key" with
        | .error m => .error m
        | .ok key =>
            match getItemE req "value" with
            | .error m => .error m
            | .ok value => .ok (okSuccessResp true, storeSet s key value)
      else if operation = some (.str "GET") then
        match getItemE req "key" with
        | .error m => .error m
        | .ok key =>
            match s key with
            | none => .ok (notFoundResp, s)
            | some v =>
                if v = Json.null then .ok (notFoundResp, s)
                else .ok (okValueResp v, s)
      else if operation = some (.str "DELETE") then
        match getItemE req "key" with
        | .error m => .error m
        | .ok key =>
            match s key with
            | none => .ok (okSuccessResp false, s)
            | some _ => .ok (okSuccessResp true, storeDel s key)
      else if operation = some (.str "BULK_SET") then
        match getItemE req "items" with
        | .error m => .error m
        | .ok (.arr items) =>
            match extractItems items with
            | .error m => .error m
            | .ok kvs => .ok (okSuccessResp true, applyBulk s kvs)
        | .ok _ => .error "TypeError: items"
      else .ok (errorResp "Unknown operation", s)
  | _ => .error "AttributeError: get"

/-- `KVStoreServer._process_request` with its `try/except`: an exception
becomes `{'status': 'ERROR', 'message': str(e)}` and the store is left as it
was. -/
def processRequest (req : Json) (s : Store) : Json × Store :=
  match processRequestE req s with
  | .ok r => r
  | .error m => (errorResp m, s)

/-- The `status` field of a reply. -/
def respStatus (resp : Json) : Option Json :=
  match resp with
  | .obj fields => dictGet fields "status"
  | _ => none

theorem processRequest_wrap (req : Json) (s : Store) :
    processRequest req s
      = match processRequestE req s with
        | .ok r => r
        | .error m => (errorResp m, s) := rfl

/-- Modelled after the spec's words (P3): the value of the most recent
acknowledged SET/BULK_SET to the key, `none` if the most recent acknowledged
operation on it was a DELETE or there was no prior SET/BULK_SET. -/
def mostRecentValue (ops : List Op) (k : Json) : Option Json :=
  (writeOf ops k).getD none

/-- C5 (amended): a GET reply is OK with the most recently written value
when that value is not null, and NOT_FOUND when the key was never set, was
deleted, or — departing from the claim — when the most recent write bound it
to null. -/
theorem get_reply_semantics (ops : List Op) (k : Json) :
    (processRequest (Json.obj [("operation", Json.str "GET"), ("key", k)])
        (applyOps emptyStore ops)).2 = applyOps emptyStore ops
    ∧ (∀ v, mostRecentValue ops k = some v → v ≠ Json.null →
        (processRequest (Json.obj [("operation", Json.str "GET"), ("key", k)])
          (applyOps emptyStore ops)).1 = okValueResp v)
    ∧ ((mostRecentValue ops k = none ∨ mostRecentValue ops k = some Json.null) →
        (processRequest (Json.obj [("operation", Json.str "GET"), ("key", k)])
          (applyOps emptyStore ops)).1 = notFoundResp) := by
  have hs : applyOps emptyStore ops k = mostRecentValue ops k := by
    rw [applyOps_apply]; rfl
  have hred : ∀ s : Store,
      processRequest (Json.obj [("operation", Json.str "GET"), ("key", k)]) s
      = match s k with
        | none => (notFoundResp, s)
        | some v =>
            if v = Json.null then (notFoundResp, s) else (okValueResp v, s) := by
    intro s
    have he : processRequestE
        (Json.obj [("operation", Json.str "GET"), ("key", k)]) s
        = match s k with
          | none => .ok (notFoundResp, s)
          | some v =>
              if v = Json.null then .ok (notFoundResp, s)
              else .ok (okValueResp v, s) := rfl
    rw [processRequest_wrap, he]
    cases s k with
    | none => rfl
    | some v => by_cases hv : v = Json.null <;> simp [hv]
  refine ⟨?_, ?_, ?_⟩
  · rw [hred]
    cases hv : (applyOps emptyStore ops) k with
    | none => rfl
    | some v =>
      dsimp only
      by_cases hn : v = Json.null <;> simp [hn]
  · intro v hv hnull
    rw [hred, hs, hv]
    simp [hnull]
  · intro h
    rw [hred, hs]
    cases h with
    | inl h => rw [h]
    | inr h => rw [h]; simp

theorem get_reply_semantics_witness :
    (processRequest
        (Json.obj [("operation", Json.str "GET"), ("key", Json.str "a")])
        (applyOps emptyStore [Op.set (.str "a") (.num 7)])).1
      = okValueResp (.num 7) :=
  (get_reply_semantics [Op.set (.str "a") (.num 7)] (Json.str "a")).2.1
    (.num 7) (by decide) (by decide)

/-- C5 as stated is false: after an acknowledged `SET "k" null`, GET replies
NOT_FOUND although the most recent acknowledged operation on the key was a
SET (not a DELETE, and not "no prior SET"), where the claim demands
`{status: OK, value: null}`. -/
theorem get_null_value_returns_not_found :
    (processRequest
        (Json.obj [("operation", Json.str "GET"), ("key", Json.str "k")])
        (applyOps emptyStore [Op.set (.str "k") Json.null])).1 = notFoundResp
    ∧ mostRecentValue [Op.set (.str "k") Json.null] (Json.str "k")
        = some Json.null
    ∧ decide ((processRequest
        (Json.obj [("operation", Json.str "GET"), ("key", Json.str "k")])
        (applyOps emptyStore [Op.set (.str "k") Json.null])).1
      = okValueResp Json.null) = false :=
  ⟨rfl, rfl, by decide⟩

/-- Every normal (non-raising) reply of the dispatcher body has one of the
four shapes the source constructs. -/
theorem processRequestE_ok_shape (fields : List (String × Json)) (s : Store)
    (resp : Json) (s2 : Store)
    (h : processRequestE (.obj fields) s = .ok (resp, s2)) :
    resp = errorResp "Unknown operation"
    ∨ (∃ b, resp = okSuccessResp b)
    ∨ resp = notFoundResp
    ∨ (∃ v, resp = okValueResp v) := by
  simp only [processRequestE] at h
  repeat' split at h
  all_goals
    first
    | exact Except.noConfusion h
    | (simp only [Except.ok.injEq, Prod.mk.injEq] at h
       obtain ⟨h2, -⟩ := h
       first
       | exact Or.inl h2.symm
       | exact Or.inr (Or.inl ⟨_, h2.symm⟩)
       | exact Or.inr (Or.inr (Or.inl h2.symm))
       | exact Or.inr (Or.inr (Or.inr ⟨_, h2.symm⟩)))

/-- C10: the dispatcher is total on JSON requests — every request yields a
reply whose status is OK, NOT_FOUND or ERROR, and a recognized mutation with
a missing required field yields an ERROR reply and leaves the store mapping
unchanged (the `KeyError` is raised before any store mutation and converted
by the `try/except`). -/
theorem dispatcher_total :
    (∀ (req : Json) (s : Store),
      respStatus (processRequest req s).1 = some (.str "OK")
      ∨ respStatus (processRequest req s).1 = some (.str "NOT_FOUND")
      ∨ respStatus (processRequest req s).1 = some (.str "ERROR"))
    ∧ (∀ (fields : List (String × Json)) (s : Store),
        dictGet fields "operation" = some (.str "SET") →
        (dictGet fields "key" = none ∨ dictGet fields "value" = none) →
        respStatus (processRequest (.obj fields) s).1 = some (.str "ERROR")
        ∧ (processRequest (.obj fields) s).2 = s)
    ∧ (∀ (fields : List (String × Json)) (s : Store) (items : List Json)
        (m : String),
        dictGet fields "operation" = some (.str "BULK_SET") →
        dictGet fields "items" = some (.arr items) →
        extractItems items = .error m →
        respStatus (processRequest (.obj fields) s).1 = some (.str "ERROR")
        ∧ (processRequest (.obj fields) s).2 = s) := by
  refine ⟨?_, ?_, ?_⟩
  · intro req s
    cases req with
    | obj fields =>
      rw [processRequest_wrap]
      cases hE : processRequestE (.obj fields) s with
      | error m => right; right; rfl
      | ok r =>
        obtain ⟨resp, s2⟩ := r
        rcases processRequestE_ok_shape fields s resp s2 hE with
          h | ⟨b, h⟩ | h | ⟨v, h⟩ <;> subst h
        · right; right; rfl
        · left; rfl
        · right; left; rfl
        · left; rfl
    | null => right; right; rfl
    | bool b => right; right; rfl
    | num n => right; right; rfl
    | str t => right; right; rfl
    | arr l => right; right; rfl
  · intro fields s hop hmiss
    rw [processRequest_wrap]
    simp only [processRequestE]
    rw [hop]
    simp only [if_pos rfl]
    cases hmiss with
    | inl hkey =>
      have hk : getItemE (Json.obj fields) "key" = .error ("KeyError: " ++ "key") := by
        simp only [getItemE]
        rw [hkey]
      rw [hk]
      exact ⟨rfl, rfl⟩
    | inr hval =>
      cases hkey : dictGet fields "key" with
      | none =>
        have hk : getItemE (Json.obj fields) "key"
            = .error ("KeyError: " ++ "key") := by
          simp only [getItemE]
          rw [hkey]
        rw [hk]
        exact ⟨rfl, rfl⟩
      | some kv =>
        have hk : getItemE (Json.obj fields) "key" = .ok kv := by
          simp only [getItemE]
          rw [hkey]
        have hv : getItemE (Json.obj fields) "value"
            = .error ("KeyError: " ++ "value") := by
          simp only [getItemE]
          rw [hval]
        rw [hk, hv]
        exact ⟨rfl, rfl⟩
  · intro fields s items m hop hitems hext
    rw [processRequest_wrap]
    simp only [processRequestE]
    rw [hop]
    rw [if_neg (by decide), if_neg (by decide), if_neg (by decide),
      if_pos rfl]
    have hi : getItemE (Json.obj fields) "items" = .ok (.arr items) := by
      simp only [getItemE]
      rw [hitems]
    rw [hi]
    simp [hext]
    rfl

theorem dispatcher_total_witness :
    respStatus (processRequest (.obj [("operation", Json.str "SET")]) emptyStore).1
      = some (.str "ERROR")
    ∧ (processRequest (.obj [("operation", Json.str "SET")]) emptyStore).2
      = emptyStore :=
  dispatcher_total.2.1 [("operation", Json.str "SET")] emptyStore rfl (Or.inl rfl)

/-! ## Checkpointing (`KVStore.checkpoint`) -/

/-- A filesystem operation performed while checkpointing. -/
inductive FsOp where
  | writeFile (path : String) (content : List Nat)
  | renameFile (src dst : String)
  | truncateFile (path : String)
deriving DecidableEq

def FsOp.isMove : FsOp → Bool
  | .renameFile _ _ => true
  | _ => false

/-- `pickle.dump(self.store, f)`: the store dict serialized as its items in
insertion order. -/
def pickleStore (snap : List (Json × Json)) : List Nat :=
  snap.length :: tokItems snap

/-- `KVStore.checkpoint` (kvstore_server.py lines 157-165; identical in
kvstore_cluster.py lines 151-157) as the sequence of filesystem operations
it performs: `open(self.data_file, 'wb')` and `pickle.dump` write the
serialization straight to the live checkpoint path `data.pkl`, then
`self.wal.checkpoint()` truncates `wal.log`. -/
def checkpointTrace (snap : List (Json × Json)) : List FsOp :=
  [FsOp.writeFile "data.pkl" (pickleStore snap),
   FsOp.truncateFile "wal.log"]

/-- Modelled from the spec's words (§4.1 "Checkpoint"), for comparison only:
serialize to a temporary path, atomically rename it over the live path, then
truncate the WAL. -/
def specCheckpointTrace (snap : List (Json × Json)) : List FsOp :=
  [FsOp.writeFile "data.pkl.tmp" (pickleStore snap),
   FsOp.renameFile "data.pkl.tmp" "data.pkl",
   FsOp.truncateFile "wal.log"]

/-- C6 as stated is false: on a concrete snapshot, the checkpoint performs no
rename at all; its first operation writes the serialization directly to the
live checkpoint path, so the live path does hold a partially written
serialization while the write is in progress. -/
theorem checkpoint_has_no_rename :
    (checkpointTrace [(.str "k", .num 1)]).head?
      = some (FsOp.writeFile "data.pkl" (pickleStore [(.str "k", .num 1)]))
    ∧ (checkpointTrace [(.str "k", .num 1)]).all (fun e => !(FsOp.isMove e)) = true
    ∧ decide (checkpointTrace [(.str "k", .num 1)]
        = specCheckpointTrace [(.str "k", .num 1)]) = false :=
  ⟨rfl, by decide, by decide⟩

/-- C6 (amended): checkpoint writes the pickled store directly to the live
checkpoint path — no temporary file and no rename — and truncates the WAL
afterwards. -/
theorem checkpoint_trace_shape (snap : List (Json × Json)) :
    checkpointTrace snap
      = [FsOp.writeFile "data.pkl" (pickleStore snap),
         FsOp.truncateFile "wal.log"]
    ∧ ∀ e ∈ checkpointTrace snap, FsOp.isMove e = false := by
  refine ⟨rfl, ?_⟩
  intro e he
  simp only [checkpointTrace, List.mem_cons, List.not_mem_nil, or_false] at he
  rcases he with h | h <;> subst h <;> rfl

theorem checkpoint_trace_shape_witness :
    checkpointTrace []
      = [FsOp.writeFile "data.pkl" (pickleStore []),
         FsOp.truncateFile "wal.log"]
    ∧ FsOp.isMove (FsOp.writeFile "data.pkl" (pickleStore [])) = false :=
  ⟨(checkpoint_trace_shape []).1,
    (checkpoint_trace_shape []).2 _ (by decide)⟩

/-! ## The cluster coordinator (`kvstore_cluster.py`, `ClusterNode`) -/

inductive NodeRole where
  | primary
  | secondary
  | candidate
deriving DecidableEq

/-- The election-relevant state of one `ClusterNode`.  Peer addresses are
abstracted to node indices; `lastHeartbeat` is an abstract clock value.
The key-value stores of the nodes play no role in the control plane. -/
structure NodeState where
  role : NodeRole
  term : Nat
  votedFor : Option Nat
  primaryNode : Option Nat
  lastHeartbeat : Nat
deriving DecidableEq

/-- State at node start: role SECONDARY, term 0, no vote cast. -/
def initNode : NodeState :=
  { role := .secondary, term := 0, votedFor := none,
    primaryNode := none, lastHeartbeat := 0 }

/-- The HEARTBEAT branch of `_handle_cluster_message` (lines 326-333):
record the heartbeat time and primary address, raise the term to the
maximum, and force the role to SECONDARY — with no condition on the term. -/
def handleHeartbeat (st : NodeState) (msgTerm : Nat) (primAddr : Nat)
    (now : Nat) : NodeState :=
  { st with
    lastHeartbeat := now,
    primaryNode := some primAddr,
    term := max st.term msgTerm,
    role := .secondary }

/-- The VOTE_REQUEST branch of `_handle_cluster_message` (lines 335-348):
adopt a strictly larger term and clear `voted_for`, then grant whenever
`voted_for` is unset or already the candidate — the candidate's term is
never compared against the node's own term as a lower bound, and the role
is never changed.  Returns (new state, vote_granted, reply term). -/
def handleVoteRequest (st : NodeState) (candTerm : Nat) (candId : Nat) :
    NodeState × Bool × Nat :=
  let st1 := if candTerm > st.term
    then { st with term := candTerm, votedFor := none }
    else st
  if st1.votedFor = none ∨ st1.votedFor = some candId then
    ({ st1 with votedFor := some candId }, true, st1.term)
  else (st1, false, st1.term)

/-- A cluster configuration: the states of nodes `0, …, n-1`, fully meshed
(each node's `peers` are all the others). -/
def Config : Type := List NodeState

/-- `_start_election` (lines 413-446), run by candidate `c`, with the peers
in `responders` receiving and answering the vote request (the others are
unreachable — `_send_to_peer` failures are swallowed and count no vote):
become CANDIDATE, increment the term, vote for self, collect grants (the
response's term is never checked), and become PRIMARY exactly when
`votes > (len(peers) + 1) // 2`, otherwise revert to SECONDARY. -/
def electionStep (cfg : Config) (c : Nat) (responders : List Nat) : Config :=
  let selfSt := cfg.getD c initNode
  let newTerm := selfSt.term + 1
  let cfg1 := cfg.set c
    { selfSt with role := .candidate, term := newTerm, votedFor := some c }
  let res := responders.foldl
    (fun (acc : Config × Nat) r =>
      let out := handleVoteRequest (acc.1.getD r initNode) newTerm c
      (acc.1.set r out.1, if out.2.1 then acc.2 + 1 else acc.2))
    (cfg1, 1)
  let numPeers := cfg.length - 1
  if res.2 > (numPeers + 1) / 2 then
    res.1.set c
      { res.1.getD c initNode with role := .primary, primaryNode := some c }
  else
    res.1.set c { res.1.getD c initNode with role := .secondary }

/-- Control-plane transitions of the cluster: a primary's heartbeat is
delivered to one node, or a node runs an election in which some subset of
its peers answers.  (REPLICATE messages touch only the key-value store,
never role, term or `voted_for`, so they cannot affect primary uniqueness
and are omitted.) -/
inductive ClusterStep : Config → Config → Prop where
  | heartbeat (cfg : Config) (p d now : Nat) :
      p < cfg.length → d < cfg.length → d ≠ p →
      (cfg.getD p initNode).role = .primary →
      ClusterStep cfg
        (cfg.set d (handleHeartbeat (cfg.getD d initNode)
          (cfg.getD p initNode).term p now))
  | election (cfg : Config) (c : Nat) (responders : List Nat) :
      c < cfg.length →
      (∀ r ∈ responders, r < cfg.length ∧ r ≠ c) →
      responders.Nodup →
      ClusterStep cfg (electionStep cfg c responders)

/-- I4: at most one node holds the PRIMARY role at any given term. -/
def uniquePrimaryPerTerm (cfg : Config) : Prop :=
  ∀ i j : Nat, i < cfg.length → j < cfg.length → i ≠ j →
    (cfg.getD i initNode).role = .primary →
    (cfg.getD j initNode).role = .primary →
    (cfg.getD i initNode).term ≠ (cfg.getD j initNode).term

/-- A 3-node cluster, every node fresh. -/
def initConfig : Config := [initNode, initNode, initNode]

/-- Node 0 wins an election at term 1 with node 2's vote (node 1 unreachable). -/
def trace1 : Config := electionStep initConfig 0 [2]

/-- Node 0's heartbeat reaches node 1, which adopts term 1. -/
def trace2 : Config :=
  trace1.set 1
    (handleHeartbeat (trace1.getD 1 initNode) (trace1.getD 0 initNode).term 0 1)

/-- Node 1 runs an election at term 2; node 0 — still PRIMARY — grants the
vote (its term is adopted and `voted_for` cleared, but the VOTE_REQUEST
handler never demotes it), so node 1 becomes PRIMARY at term 2 while node 0
is also PRIMARY at term 2. -/
def trace3 : Config := electionStep trace2 1 [0]

/-- C3: primary uniqueness per term is violated in a reachable state: after
the three steps above, nodes 0 and 1 both have role PRIMARY with term 2.
The root cause is that the VOTE_REQUEST branch adopts a higher term without
stepping the primary down. -/
theorem primary_uniqueness_violated :
    ∃ cfg : Config,
      Relation.ReflTransGen ClusterStep initConfig cfg
      ∧ (cfg.getD 0 initNode).role = .primary
      ∧ (cfg.getD 1 initNode).role = .primary
      ∧ (cfg.getD 0 initNode).term = 2
      ∧ (cfg.getD 1 initNode).term = 2
      ∧ ¬ uniquePrimaryPerTerm cfg := by
  refine ⟨trace3, ?_, by decide, by decide, by decide, by decide, ?_⟩
  · have s1 : ClusterStep initConfig trace1 :=
      ClusterStep.election initConfig 0 [2] (by decide) (by decide) (by decide)
    have s2 : ClusterStep trace1 trace2 :=
      ClusterStep.heartbeat trace1 0 1 1 (by decide) (by decide) (by decide)
        (by decide)
    have s3 : ClusterStep trace2 trace3 :=
      ClusterStep.election trace2 1 [0] (by decide) (by decide) (by decide)
    exact Relation.ReflTransGen.head s1
      (Relation.ReflTransGen.head s2 (Relation.ReflTransGen.single s3))
  · intro h
    exact absurd (by decide : (trace3.getD 0 initNode).term
        = (trace3.getD 1 initNode).term)
      (h 0 1 (by decide) (by decide) (by decide) (by decide) (by decide))

/-- C7 as stated is false: a voter at term 5 that has not voted grants a
VOTE_REQUEST whose term 3 is strictly below its own term (the handler has no
lower-bound check), where the claim requires refusal; the reply carries the
voter's term 5. -/
theorem stale_term_vote_granted :
    (handleVoteRequest
      { role := .secondary, term := 5, votedFor := none,
        primaryNode := none, lastHeartbeat := 0 } 3 7).2.1 = true
    ∧ (handleVoteRequest
      { role := .secondary, term := 5, votedFor := none,
        primaryNode := none, lastHeartbeat := 0 } 3 7).2.2 = 5
    ∧ (3 : Nat) < 5 :=
  ⟨by decide, by decide, by decide⟩

/-- C7 (amended): the vote is granted iff the candidate's term strictly
exceeds the voter's (which clears `voted_for`) or `voted_for` is unset or
already the candidate — with no refusal for stale terms; the voter's term
becomes the maximum of the two, a granted vote records the candidate, and
the reply always carries `vote_granted` and the voter's (updated) term. -/
theorem vote_request_characterization (st : NodeState) (t cid : Nat) :
    handleVoteRequest st t cid =
      if t > st.term ∨ st.votedFor = none ∨ st.votedFor = some cid then
        ({ st with term := max st.term t, votedFor := some cid }, true,
          max st.term t)
      else (st, false, st.term) := by
  unfold handleVoteRequest
  by_cases ht : t > st.term
  · have hmax : max st.term t = t := Nat.max_eq_right (le_of_lt ht)
    simp [ht, hmax]
  · have hmax : max st.term t = st.term := Nat.max_eq_left (le_of_not_lt ht)
    by_cases hv : st.votedFor = none ∨ st.votedFor = some cid
    · simp [ht, hv, hmax]
    · simp [ht, hv, hmax]

/-- C8 as stated is false: a PRIMARY at term 5 receiving a HEARTBEAT with
term 3 (≤ its own) is demoted to SECONDARY — the handler forces the role
unconditionally. -/
theorem primary_demoted_by_stale_heartbeat :
    (handleHeartbeat
      { role := .primary, term := 5, votedFor := none,
        primaryNode := some 0, lastHeartbeat := 0 } 3 2 1).role = .secondary
    ∧ (3 : Nat) ≤ 5 :=
  ⟨by decide, by decide⟩

/-- C8 (amended): every received HEARTBEAT forces the role to SECONDARY
regardless of its term (the term is merely raised to the maximum), while a
VOTE_REQUEST never changes the role — in particular a PRIMARY is *not*
demoted by a vote request with a strictly greater term. -/
theorem primary_demotion_characterization :
    (∀ (st : NodeState) (t a now : Nat),
      (handleHeartbeat st t a now).role = .secondary
      ∧ (handleHeartbeat st t a now).term = max st.term t)
    ∧ (∀ (st : NodeState) (t cid : Nat),
      ((handleVoteRequest st t cid).1).role = st.role) := by
  constructor
  · intro st t a now
    exact ⟨rfl, rfl⟩
  · intro st t cid
    unfold handleVoteRequest
    dsimp only
    repeat' split
    all_goals rfl

end KVSpec
